import Mathlib

/-!
Verification of the two core mechanisms of the LLM-Prompt_Engineering
repository: the template engine (named placeholders filled from a mapping of
variables) and the transcript accumulator (an append-only conversation log
rendered into the text sent on each model call). The notebooks exercise these
mechanisms only through a third-party library, so the operations below are
modelled from the repository's specification and the claims are settled
against that model.
-/

namespace PromptSpec

/-- A parsed fragment of a template: a literal character or one occurrence of
a named placeholder. -/
inductive Seg where
  | lit : Char → Seg
  | hole : String → Seg
deriving DecidableEq

/-- Errors of the template engine: malformed placeholder syntax (parse time)
or a declared placeholder with no value (resolve time, carrying the name). -/
inductive TemplateError where
  | malformedTemplate : TemplateError
  | missingVariable : String → TemplateError
deriving DecidableEq

/-- Modelled from the spec: a Template holds the raw template string together
with its parse into literal characters and placeholder occurrences; the
declared placeholder names are derived from the parse. The library class
`PromptTemplate` used by the notebooks is not part of the repository. -/
structure Template where
  raw : List Char
  segs : List Seg
deriving DecidableEq

/-- Characters allowed inside a placeholder name: letters, digits,
underscore. -/
def isIdentChar (c : Char) : Bool :=
  c.isAlpha || c.isDigit || c = '_'

/-- A valid placeholder name: nonempty, does not start with a digit, and uses
only the identifier charset. -/
def validName (cs : List Char) : Bool :=
  match cs with
  | [] => false
  | c :: rest => (c.isAlpha || c = '_') && rest.all isIdentChar

/-- Modelled from the spec: the scanner behind `parse`. The second argument
is `none` in literal text and `some acc` after an opening delimiter, where
`acc` holds the name characters read so far in reverse. An opening delimiter
that is never closed, or a placeholder token outside the identifier charset,
is a malformed template. -/
def parseAux : List Char → Option (List Char) → Except TemplateError (List Seg)
  | [], none => Except.ok []
  | [], some _ => Except.error TemplateError.malformedTemplate
  | c :: rest, none =>
      if c = '{' then parseAux rest (some [])
      else (parseAux rest none).map (fun segs => Seg.lit c :: segs)
  | c :: rest, some acc =>
      if c = '}' then
        if validName acc.reverse then
          (parseAux rest none).map (fun segs => Seg.hole (String.mk acc.reverse) :: segs)
        else Except.error TemplateError.malformedTemplate
      else parseAux rest (some (c :: acc))

/-- Modelled from the spec: `parse` scans a template string for
brace-enclosed identifiers and either returns the Template or fails with
`MalformedTemplateError`. -/
def parse (s : List Char) : Except TemplateError Template :=
  (parseAux s none).map (fun segs => { raw := s, segs := segs })

/-- The placeholder names occurring in a segment list, in occurrence order
(the declared set is the set of these names). -/
def segNames (segs : List Seg) : List String :=
  segs.filterMap (fun s =>
    match s with
    | Seg.hole n => some n
    | Seg.lit _ => none)

/-- The declared placeholder names of a template. -/
def Template.placeholders (t : Template) : List String :=
  segNames t.segs

/-- Look a placeholder name up in the variable mapping (an association
list; insertion order of unrelated keys is irrelevant to the result). -/
def lookupVar (vars : List (String × String)) (n : String) : Option String :=
  (vars.find? (fun p => p.1 = n)).map (fun p => p.2)

/-- Modelled from the spec: substitution over the parsed segments. Each
placeholder occurrence is replaced by the looked-up value inserted verbatim;
a declared placeholder with no entry fails with `MissingVariableError`
naming it. Substitution is single-pass: inserted text is never rescanned. -/
def resolveSegs (segs : List Seg) (vars : List (String × String)) :
    Except TemplateError (List Char) :=
  match segs with
  | [] => Except.ok []
  | Seg.lit c :: rest => (resolveSegs rest vars).map (fun out => c :: out)
  | Seg.hole n :: rest =>
      match lookupVar vars n with
      | none => Except.error (TemplateError.missingVariable n)
      | some v => (resolveSegs rest vars).map (fun out => v.data ++ out)

/-- Modelled from the spec: `resolve` substitutes every placeholder
occurrence of the template from the variable mapping. -/
def resolve (t : Template) (vars : List (String × String)) :
    Except TemplateError (List Char) :=
  resolveSegs t.segs vars

/-- Total single-pass substitution (missing names become empty); on inputs
where every declared name has a value it describes `resolve`'s output. -/
def substSegs (segs : List Seg) (vars : List (String × String)) : List Char :=
  match segs with
  | [] => []
  | Seg.lit c :: rest => c :: substSegs rest vars
  | Seg.hole n :: rest => ((lookupVar vars n).getD "").data ++ substSegs rest vars

/-- One labeled utterance in a conversation transcript. -/
structure Turn where
  role : String
  text : String
deriving DecidableEq

/-- Errors of the transcript accumulator: an unrecognized role, or a wrapped
failure of the external model-invocation capability. -/
inductive TranscriptError where
  | invalidRole : TranscriptError
  | externalInvocation : String → TranscriptError
deriving DecidableEq

/-- The closed role set of the transcript accumulator. -/
def roleSet : List String := ["user", "agent"]

/-- Modelled from the spec: a Transcript is the ordered sequence of Turns
appended so far. The library class `ConversationBufferMemory` used by the
notebooks is not part of the repository. -/
structure Transcript where
  turns : List Turn
deriving DecidableEq

/-- Modelled from the spec: `createSession` returns an empty transcript. -/
def createSession : Transcript := { turns := [] }

/-- Modelled from the spec: `appendTurn` appends a new Turn at the end, or
fails with `InvalidRoleError` when the role is outside the closed role set.
State passing replaces in-place mutation. -/
def appendTurn (t : Transcript) (role text : String) :
    Except TranscriptError Transcript :=
  if role ∈ roleSet then
    Except.ok { turns := t.turns ++ [{ role := role, text := text }] }
  else
    Except.error TranscriptError.invalidRole

/-- One rendered turn, in the fixed `role: text` convention. -/
def renderTurn (turn : Turn) : String :=
  turn.role ++ ": " ++ turn.text

/-- Modelled from the spec: `render` produces the role-labeled concatenation
of all Turns in order, joined by a newline, by folding over the sequence. -/
def render (t : Transcript) : String :=
  match t.turns with
  | [] => ""
  | turn :: rest => rest.foldl (fun acc u => acc ++ "\n" ++ renderTurn u) (renderTurn turn)

/-- The tail part of a newline-joined rendering: a separator before each
remaining turn. -/
def joinTail : List Turn → String
  | [] => ""
  | turn :: rest => "\n" ++ renderTurn turn ++ joinTail rest

/-- Recursive description of the rendering convention: each turn rendered as
`role: text`, consecutive turns joined by a single newline. -/
def joinTurns : List Turn → String
  | [] => ""
  | turn :: rest => renderTurn turn ++ joinTail rest

/-- The transcript with the new user Turn appended (the intermediate state
`recordRound` submits to the external capability). -/
def withUserTurn (t : Transcript) (userText : String) : Transcript :=
  { turns := t.turns ++ [{ role := "user", text := userText }] }

/-- Modelled from the spec: `recordRound` appends the user Turn, submits the
rendering of that intermediate transcript to the external model invoker
exactly once, appends the reply as an agent Turn and returns it; a failure of
the invoker is re-surfaced as `ExternalInvocationError` wrapping it, with no
internal retry, and leaves the transcript unchanged (append-after-success
policy). -/
def recordRound (t : Transcript) (userText : String)
    (modelInvoker : String → Except String String) :
    Except TranscriptError (Transcript × String) :=
  match modelInvoker (render (withUserTurn t userText)) with
  | Except.error e => Except.error (TranscriptError.externalInvocation e)
  | Except.ok reply =>
      Except.ok
        ({ turns := (withUserTurn t userText).turns ++ [{ role := "agent", text := reply }] },
         reply)

/-- Run a sequence of `appendTurn` requests, keeping the successful ones and
leaving the transcript unchanged on a failed one. -/
def appendAll (t : Transcript) : List (String × String) → Transcript
  | [] => t
  | (r, x) :: rest =>
      match appendTurn t r x with
      | Except.ok t2 => appendAll t2 rest
      | Except.error _ => appendAll t rest

/-- An operation on a transcript session, for stating state-change
properties of operation sequences. -/
inductive Op where
  | append : String → String → Op
  | render : Op

/-- Modelled from the spec: the effect of one operation on the session
state, paired with its observable output. -/
def execOp (t : Transcript) : Op → Transcript × Except TranscriptError String
  | Op.append r x =>
      match appendTurn t r x with
      | Except.ok t2 => (t2, Except.ok "")
      | Except.error e => (t, Except.error e)
  | Op.render => (t, Except.ok (render t))

/-- The session state and the list of outputs after a sequence of
operations. -/
def execList (t : Transcript) : List Op → Transcript × List (Except TranscriptError String)
  | [] => (t, [])
  | op :: rest =>
      ((execList (execOp t op).1 rest).1,
       (execOp t op).2 :: (execList (execOp t op).1 rest).2)

/-- The scenario template string of the spec. -/
def adaStr : List Char := "Hello, {name}! You are {age} years old.".data

/-- The scenario template, as parsed by `parse`. -/
def adaTemplate : Template :=
  match parse adaStr with
  | Except.ok t => t
  | Except.error _ => { raw := [], segs := [] }

/-- The scenario variable mapping of the spec. -/
def adaVars : List (String × String) := [("name", "Ada"), ("age", "37")]

/-- A request sequence with one invalid-role request in the middle. -/
def demoReqs : List (String × String) :=
  [("user", "Hi"), ("system", "x"), ("agent", "Hello")]

/-- A small template string whose substituted value will itself contain
delimiter-like text. -/
def braceStr : List Char := "A{p}B".data

/-- The template parsed from `braceStr`. -/
def braceTemplate : Template :=
  match parse braceStr with
  | Except.ok t => t
  | Except.error _ => { raw := [], segs := [] }

/-- A mapping whose value for `p` is the delimiter-like text `{x}`, while
`x` itself also has an entry: single-pass substitution must not use it. -/
def braceVars : List (String × String) := [("p", "{x}"), ("x", "BAD")]

theorem foldl_render_eq (l : List Turn) (s : String) :
    l.foldl (fun acc u => acc ++ "\n" ++ renderTurn u) s = s ++ joinTail l := by
  induction l generalizing s with
  | nil => simp [joinTail]
  | cons u rest ih =>
      rw [List.foldl_cons, ih, joinTail]
      simp [String.append_assoc]

theorem render_eq_joinTurns (t : Transcript) : render t = joinTurns t.turns := by
  obtain ⟨turns⟩ := t
  cases turns with
  | nil => rfl
  | cons turn rest => simp [render, joinTurns, foldl_render_eq]

/-- C3: for every transcript, `render` produces the role-labeled
concatenation of all turns in order, each turn rendered as `role: text` and
consecutive turns joined by a newline; in particular appending the user turn
"Hi" and then the agent turn "Hello" to a fresh session renders as
"user: Hi\nagent: Hello". -/
theorem render_joins_turns_in_order :
    (∀ t : Transcript, render t = joinTurns t.turns) ∧
    (∃ t1 t2 : Transcript,
      appendTurn createSession "user" "Hi" = Except.ok t1 ∧
      appendTurn t1 "agent" "Hello" = Except.ok t2 ∧
      render t2 = "user: Hi\nagent: Hello") := by
  refine ⟨render_eq_joinTurns, ?_⟩
  exact ⟨{ turns := [{ role := "user", text := "Hi" }] },
         { turns := [{ role := "user", text := "Hi" }, { role := "agent", text := "Hello" }] },
         rfl, rfl, rfl⟩

/-- C7: for every transcript and every role outside the closed role set
(user, agent), `appendTurn` fails with `InvalidRoleError`, whatever the
text. -/
theorem appendTurn_invalid_role (t : Transcript) (role text : String)
    (h : role ∉ roleSet) :
    appendTurn t role text = Except.error TranscriptError.invalidRole := by
  simp [appendTurn, h]

/-- Witness for C7: appending a "system" turn to a fresh session fails with
`InvalidRoleError`. -/
theorem appendTurn_invalid_role_witness :
    appendTurn createSession "system" "x" = Except.error TranscriptError.invalidRole :=
  appendTurn_invalid_role createSession "system" "x" (by decide)

theorem execList_double_render (ops : List Op) : ∀ t : Transcript,
    (execList t (ops ++ [Op.render, Op.render])).1 = (execList t ops).1 ∧
    ∃ out, (execList t (ops ++ [Op.render, Op.render])).2 =
      (execList t ops).2 ++ [Except.ok out, Except.ok out] := by
  induction ops with
  | nil => exact fun t => ⟨rfl, ⟨render t, rfl⟩⟩
  | cons op rest ih =>
      intro t
      obtain ⟨h1, out, h2⟩ := ih (execOp t op).1
      exact ⟨by simpa [execList] using h1, out, by simp [execList, h2]⟩

/-- C8: `render` is idempotent and side-effect free: the render operation
leaves the session state unchanged, and after any prior operation sequence
two consecutive renders with no intervening append return identical
strings. -/
theorem render_idempotent_pure (t : Transcript) (ops : List Op) :
    (execOp t Op.render).1 = t ∧
    (execList t (ops ++ [Op.render, Op.render])).1 = (execList t ops).1 ∧
    ∃ out, (execList t (ops ++ [Op.render, Op.render])).2 =
      (execList t ops).2 ++ [Except.ok out, Except.ok out] :=
  ⟨rfl, (execList_double_render ops t).1, (execList_double_render ops t).2⟩

/-- C9: if the external model invoker fails on the submitted prompt,
`recordRound` fails with `ExternalInvocationError` wrapping that failure
unchanged; the round fails outright. -/
theorem recordRound_propagates_external_error (t : Transcript) (u : String)
    (f : String → Except String String) (e : String)
    (h : f (render (withUserTurn t u)) = Except.error e) :
    recordRound t u f = Except.error (TranscriptError.externalInvocation e) := by
  simp [recordRound, h]

/-- Witness for C9: an invoker that always fails with "boom" makes
`recordRound` on a fresh session fail with `ExternalInvocationError`
wrapping "boom". -/
theorem recordRound_propagates_external_error_witness :
    recordRound createSession "Hi" (fun _ => Except.error "boom") =
      Except.error (TranscriptError.externalInvocation "boom") :=
  recordRound_propagates_external_error createSession "Hi"
    (fun _ => Except.error "boom") "boom" rfl

/-- C10: rendering the freshly created, empty transcript yields the empty
string, so the first round's submitted prompt carries an empty history: the
prompt submitted for the first user text `u` is exactly `user: u`, with no
leading separator. -/
theorem render_empty_session :
    render createSession = "" ∧ createSession.turns = [] ∧
    ∀ u : String, render (withUserTurn createSession u) = "user: " ++ u := by
  refine ⟨rfl, rfl, fun u => ?_⟩
  simp [render, withUserTurn, renderTurn]
  rfl

theorem segNames_nil : segNames [] = [] := rfl

theorem segNames_lit (c : Char) (rest : List Seg) :
    segNames (Seg.lit c :: rest) = segNames rest := rfl

theorem segNames_hole (n : String) (rest : List Seg) :
    segNames (Seg.hole n :: rest) = n :: segNames rest := rfl

theorem lookupVar_mem (vars : List (String × String)) (n v : String)
    (h : lookupVar vars n = some v) : (n, v) ∈ vars := by
  unfold lookupVar at h
  cases hf : vars.find? (fun p => p.1 = n) with
  | none => rw [hf] at h; simp at h
  | some p =>
      rw [hf] at h
      simp only [Option.map] at h
      have hp : p.1 = n := by simpa using List.find?_some hf
      have hmem := List.mem_of_find?_eq_some hf
      have : (n, v) = p := by
        obtain ⟨p1, p2⟩ := p
        simp only [Option.some.injEq] at h
        simp_all
      rw [this]
      exact hmem

theorem resolveSegs_ok_of_present (segs : List Seg) (vars : List (String × String))
    (h : ∀ n ∈ segNames segs, (lookupVar vars n).isSome) :
    resolveSegs segs vars = Except.ok (substSegs segs vars) := by
  induction segs with
  | nil => rfl
  | cons s rest ih =>
      cases s with
      | lit c =>
          have hr : ∀ n ∈ segNames rest, (lookupVar vars n).isSome := by
            intro n hn
            exact h n (by rw [segNames_lit]; exact hn)
          simp [resolveSegs, substSegs, ih hr, Except.map]
      | hole m =>
          have hm : (lookupVar vars m).isSome := by
            exact h m (by rw [segNames_hole]; exact List.mem_cons_self _ _)
          obtain ⟨v, hv⟩ := Option.isSome_iff_exists.mp hm
          have hr : ∀ n ∈ segNames rest, (lookupVar vars n).isSome := by
            intro n hn
            exact h n (by rw [segNames_hole]; exact List.mem_cons_of_mem _ hn)
          simp [resolveSegs, substSegs, hv, ih hr, Except.map]

theorem parseAux_ok_no_lit_brace (l : List Char) : ∀ (m : Option (List Char)) (segs : List Seg),
    parseAux l m = Except.ok segs → ∀ c : Char, Seg.lit c ∈ segs → c ≠ '{' := by
  induction l with
  | nil =>
      intro m segs h c hc
      cases m with
      | none =>
          simp only [parseAux, Except.ok.injEq] at h
          subst h
          cases hc
      | some acc => simp [parseAux] at h
  | cons a rest ih =>
      intro m segs h c hc
      cases m with
      | none =>
          by_cases ha : a = '{'
          · rw [show parseAux (a :: rest) none = parseAux rest (some []) by
              simp [parseAux, ha]] at h
            exact ih _ _ h c hc
          · simp only [parseAux, if_neg ha] at h
            cases hrest : parseAux rest none with
            | error e => rw [hrest] at h; simp [Except.map] at h
            | ok segs2 =>
                rw [hrest] at h
                simp only [Except.map, Except.ok.injEq] at h
                subst h
                rcases List.mem_cons.mp hc with h1 | h1
                · cases h1; exact ha
                · exact ih _ _ hrest c h1
      | some acc =>
          by_cases ha : a = '}'
          · simp only [parseAux, if_pos ha] at h
            by_cases hv : validName acc.reverse
            · rw [if_pos hv] at h
              cases hrest : parseAux rest none with
              | error e => rw [hrest] at h; simp [Except.map] at h
              | ok segs2 =>
                  rw [hrest] at h
                  simp only [Except.map, Except.ok.injEq] at h
                  subst h
                  rcases List.mem_cons.mp hc with h1 | h1
                  · cases h1
                  · exact ih _ _ hrest c h1
            · rw [if_neg hv] at h
              simp at h
          · simp only [parseAux, if_neg ha] at h
            exact ih _ _ h c hc

theorem substSegs_no_brace (segs : List Seg) (vars : List (String × String))
    (hl : ∀ c : Char, Seg.lit c ∈ segs → c ≠ '{')
    (hv : ∀ p ∈ vars, ('{' : Char) ∉ p.2.data) :
    ('{' : Char) ∉ substSegs segs vars := by
  induction segs with
  | nil => simp [substSegs]
  | cons s rest ih =>
      have hlr : ∀ c : Char, Seg.lit c ∈ rest → c ≠ '{' :=
        fun c hc => hl c (List.mem_cons_of_mem _ hc)
      cases s with
      | lit c =>
          intro hmem
          rw [substSegs] at hmem
          rcases List.mem_cons.mp hmem with h1 | h1
          · exact hl c (List.mem_cons_self _ _) h1.symm
          · exact ih hlr h1
      | hole n =>
          intro hmem
          rw [substSegs] at hmem
          cases hn : lookupVar vars n with
          | none =>
              rw [hn] at hmem
              simp only [Option.getD_none] at hmem
              exact ih hlr (by simpa using hmem)
          | some v =>
              rw [hn] at hmem
              simp only [Option.getD_some] at hmem
              rcases List.mem_append.mp hmem with h1 | h1
              · exact hv (n, v) (lookupVar_mem vars n v hn) h1
              · exact ih hlr h1

/-- C1: for every template whose declared placeholders all have entries in
the variable mapping, `resolve` succeeds, its output is the template text
with every placeholder occurrence replaced by its value, and (when no
supplied value itself contains an opening delimiter) the output contains no
unresolved delimiter marker. -/
theorem resolve_total_of_vars_present (s : List Char) (t : Template)
    (vars : List (String × String)) (hp : parse s = Except.ok t)
    (hv : ∀ n ∈ t.placeholders, (lookupVar vars n).isSome) :
    ∃ out, resolve t vars = Except.ok out ∧ out = substSegs t.segs vars ∧
      ((∀ p ∈ vars, ('{' : Char) ∉ p.2.data) → ('{' : Char) ∉ out) := by
  refine ⟨substSegs t.segs vars, resolveSegs_ok_of_present t.segs vars hv, rfl, ?_⟩
  intro hvals
  have hsegs : parseAux s none = Except.ok t.segs := by
    unfold parse at hp
    cases hps : parseAux s none with
    | error e => rw [hps] at hp; simp [Except.map] at hp
    | ok segs =>
        rw [hps] at hp
        simp only [Except.map, Except.ok.injEq] at hp
        rw [← hp]
  exact substSegs_no_brace t.segs vars (parseAux_ok_no_lit_brace s none t.segs hsegs) hvals

/-- Witness for C1: the spec scenario. The template
"Hello, {name}! You are {age} years old." with name "Ada" and age "37"
resolves to "Hello, Ada! You are 37 years old.". -/
theorem resolve_total_witness :
    parse adaStr = Except.ok adaTemplate ∧
    resolve adaTemplate adaVars = Except.ok "Hello, Ada! You are 37 years old.".data := by
  refine ⟨rfl, ?_⟩
  obtain ⟨out, h1, h2, _⟩ :=
    resolve_total_of_vars_present adaStr adaTemplate adaVars rfl (by decide)
  rw [h1, h2]
  rfl

theorem resolveSegs_missing (segs : List Seg) (vars : List (String × String)) (k : String) :
    k ∈ segNames segs → lookupVar vars k = none →
    (∀ n ∈ segNames segs, n ≠ k → (lookupVar vars n).isSome) →
    resolveSegs segs vars = Except.error (TemplateError.missingVariable k) := by
  induction segs with
  | nil => intro hk _ _; rw [segNames_nil] at hk; cases hk
  | cons s rest ih =>
      intro hk hnone hrest
      cases s with
      | lit c =>
          rw [segNames_lit] at hk hrest
          simp [resolveSegs, ih hk hnone hrest, Except.map]
      | hole m =>
          by_cases hm : m = k
          · subst hm
            simp [resolveSegs, hnone]
          · rw [segNames_hole] at hk hrest
            have hsome := hrest m (List.mem_cons_self _ _) hm
            obtain ⟨v, hv⟩ := Option.isSome_iff_exists.mp hsome
            have hk2 : k ∈ segNames rest := by
              rcases List.mem_cons.mp hk with h | h
              · exact absurd h.symm hm
              · exact h
            have hrest2 : ∀ n ∈ segNames rest, n ≠ k → (lookupVar vars n).isSome :=
              fun n hn => hrest n (List.mem_cons_of_mem _ hn)
            simp [resolveSegs, hv, ih hk2 hnone hrest2, Except.map]

/-- C2: for every template, a variable mapping that lacks exactly the
declared placeholder `k` (every other declared name has an entry) makes
`resolve` fail with `MissingVariableError` naming exactly `k`; and when
every declared name has an entry, `resolve` never fails this way. -/
theorem resolve_missing_variable :
    (∀ (t : Template) (vars : List (String × String)) (k : String),
      k ∈ t.placeholders → lookupVar vars k = none →
      (∀ n ∈ t.placeholders, n ≠ k → (lookupVar vars n).isSome) →
      resolve t vars = Except.error (TemplateError.missingVariable k)) ∧
    (∀ (t : Template) (vars : List (String × String)),
      (∀ n ∈ t.placeholders, (lookupVar vars n).isSome) →
      ∀ k, resolve t vars ≠ Except.error (TemplateError.missingVariable k)) := by
  constructor
  · intro t vars k hk hnone hrest
    exact resolveSegs_missing t.segs vars k hk hnone hrest
  · intro t vars hall k
    simp [resolve, resolveSegs_ok_of_present t.segs vars hall]

/-- Witness for C2: dropping "age" from the scenario mapping makes resolve
fail with `MissingVariableError` naming "age"; the full mapping never fails
that way. -/
theorem resolve_missing_variable_witness :
    resolve adaTemplate [("name", "Ada")] = Except.error (TemplateError.missingVariable "age") ∧
    resolve adaTemplate adaVars ≠ Except.error (TemplateError.missingVariable "age") :=
  ⟨resolve_missing_variable.1 adaTemplate [("name", "Ada")] "age"
      (by decide) (by decide) (by decide),
   resolve_missing_variable.2 adaTemplate adaVars (by decide) "age"⟩

theorem resolveSegs_split (pre post : List Seg) (n v : String)
    (vars : List (String × String)) (hv : lookupVar vars n = some v) :
    resolveSegs (pre ++ Seg.hole n :: post) vars = (resolveSegs pre vars).bind (fun o1 =>
      (resolveSegs post vars).map (fun o2 => o1 ++ (v.data ++ o2))) := by
  induction pre with
  | nil =>
      rw [List.nil_append]
      cases hp : resolveSegs post vars with
      | error e => simp [resolveSegs, hv, hp, Except.bind, Except.map]
      | ok o2 => simp [resolveSegs, hv, hp, Except.bind, Except.map]
  | cons s rest ih =>
      cases s with
      | lit c =>
          rw [List.cons_append]
          cases hr : resolveSegs rest vars with
          | error e => simp [resolveSegs, ih, hr, Except.bind, Except.map]
          | ok o1 =>
              cases hp : resolveSegs post vars with
              | error e => simp [resolveSegs, ih, hr, hp, Except.bind, Except.map]
              | ok o2 => simp [resolveSegs, ih, hr, hp, Except.bind, Except.map]
      | hole m =>
          rw [List.cons_append]
          cases hm : lookupVar vars m with
          | none => simp [resolveSegs, hm, Except.bind, Except.map]
          | some w =>
              cases hr : resolveSegs rest vars with
              | error e => simp [resolveSegs, ih, hr, hm, Except.bind, Except.map]
              | ok o1 =>
                  cases hp : resolveSegs post vars with
                  | error e => simp [resolveSegs, ih, hr, hm, hp, Except.bind, Except.map]
                  | ok o2 =>
                      simp [resolveSegs, ih, hr, hm, hp, Except.bind, Except.map,
                        List.append_assoc]

/-- C5: substitution is single-pass and non-recursive: every placeholder
occurrence, at any position in the template (so repeated occurrences of one
name all get the same value), is replaced by the supplied value's characters
inserted verbatim between the resolutions of the surrounding segments; the
inserted text is never rescanned for delimiters. -/
theorem resolve_single_pass (t : Template) (vars : List (String × String))
    (pre post : List Seg) (n v : String)
    (hsplit : t.segs = pre ++ Seg.hole n :: post)
    (hv : lookupVar vars n = some v) :
    resolve t vars = (resolveSegs pre vars).bind (fun o1 =>
      (resolveSegs post vars).map (fun o2 => o1 ++ (v.data ++ o2))) := by
  rw [resolve, hsplit]
  exact resolveSegs_split pre post n v vars hv

/-- Witness for C5: the template "A{p}B" with p bound to the
delimiter-like text "{x}" resolves to "A{x}B" even though "x" itself has an
entry (value "BAD"): the inserted text is not re-resolved. -/
theorem resolve_single_pass_witness :
    lookupVar braceVars "x" = some "BAD" ∧
    resolve braceTemplate braceVars = Except.ok "A{x}B".data := by
  refine ⟨rfl, ?_⟩
  rw [resolve_single_pass braceTemplate braceVars [Seg.lit 'A'] [Seg.lit 'B'] "p" "{x}" rfl rfl]
  rfl

theorem parseAux_no_close (l : List Char) (hl : ('}' : Char) ∉ l) : ∀ acc : List Char,
    parseAux l (some acc) = Except.error TemplateError.malformedTemplate := by
  induction l with
  | nil => intro acc; rfl
  | cons c rest ih =>
      intro acc
      have hc : c ≠ '}' := fun h => hl (h ▸ List.mem_cons_self _ _)
      have hrest : ('}' : Char) ∉ rest := fun h => hl (List.mem_cons_of_mem _ h)
      simp [parseAux, hc, ih hrest]

theorem parseAux_unclosed (a : List Char) : ∀ b : List Char, ('}' : Char) ∉ b →
    (parseAux (a ++ '{' :: b) none = Except.error TemplateError.malformedTemplate) ∧
    (∀ acc : List Char,
      parseAux (a ++ '{' :: b) (some acc) = Except.error TemplateError.malformedTemplate) := by
  induction a with
  | nil =>
      intro b hb
      constructor
      · simp [parseAux, parseAux_no_close b hb]
      · intro acc
        simp [parseAux, parseAux_no_close b hb]
  | cons c rest ih =>
      intro b hb
      constructor
      · rw [List.cons_append]
        by_cases hc : c = '{'
        · simp [parseAux, hc, (ih b hb).2]
        · simp [parseAux, hc, (ih b hb).1, Except.map]
      · intro acc
        rw [List.cons_append]
        by_cases hc : c = '}'
        · by_cases hv : validName acc.reverse
          · simp [parseAux, hc, hv, (ih b hb).1, Except.map]
          · simp [parseAux, hc, hv]
        · simp [parseAux, hc, (ih b hb).2]

theorem resolveSegs_not_malformed (segs : List Seg) (vars : List (String × String)) :
    resolveSegs segs vars ≠ Except.error TemplateError.malformedTemplate := by
  induction segs with
  | nil => simp [resolveSegs]
  | cons s rest ih =>
      cases s with
      | lit c =>
          cases hr : resolveSegs rest vars with
          | error e =>
              simp only [resolveSegs, hr, Except.map]
              intro h
              exact ih (hr.trans (by simpa using h))
          | ok o => simp [resolveSegs, hr, Except.map]
      | hole n =>
          cases hn : lookupVar vars n with
          | none => simp [resolveSegs, hn]
          | some v =>
              cases hr : resolveSegs rest vars with
              | error e =>
                  simp only [resolveSegs, hn, Except.map, hr]
                  intro h
                  exact ih (hr.trans (by simpa using h))
              | ok o => simp [resolveSegs, hn, hr, Except.map]

/-- C6: a template string in which a placeholder delimiter is opened but
never closed afterwards fails to parse with `MalformedTemplateError`; and
`MalformedTemplateError` is raised only at parse time: `resolve` never
returns it. -/
theorem parse_unclosed_malformed :
    (∀ a b : List Char, ('}' : Char) ∉ b →
      parse (a ++ '{' :: b) = Except.error TemplateError.malformedTemplate) ∧
    (∀ (t : Template) (vars : List (String × String)),
      resolve t vars ≠ Except.error TemplateError.malformedTemplate) := by
  constructor
  · intro a b hb
    simp [parse, (parseAux_unclosed a b hb).1, Except.map]
  · intro t vars
    exact resolveSegs_not_malformed t.segs vars

/-- Witness for C6: the spec scenario, parsing "Unclosed {name" fails with
`MalformedTemplateError`, and the scenario resolve call never returns a
`MalformedTemplateError`. -/
theorem parse_unclosed_malformed_witness :
    parse ("Unclosed ".data ++ '{' :: "name".data) =
      Except.error TemplateError.malformedTemplate ∧
    resolve adaTemplate adaVars ≠ Except.error TemplateError.malformedTemplate :=
  ⟨parse_unclosed_malformed.1 "Unclosed ".data "name".data (by decide),
   parse_unclosed_malformed.2 adaTemplate adaVars⟩

theorem appendTurn_extends (t : Transcript) (r x : String) (t2 : Transcript)
    (h : appendTurn t r x = Except.ok t2) :
    t2.turns = t.turns ++ [{ role := r, text := x }] := by
  by_cases hr : r ∈ roleSet
  · simp only [appendTurn, if_pos hr, Except.ok.injEq] at h
    rw [← h]
  · simp [appendTurn, hr] at h

theorem appendAll_turns (reqs : List (String × String)) : ∀ t : Transcript,
    (appendAll t reqs).turns =
      t.turns ++ (reqs.filter (fun p => p.1 ∈ roleSet)).map
        (fun p => { role := p.1, text := p.2 }) := by
  induction reqs with
  | nil => intro t; simp [appendAll]
  | cons r rest ih =>
      intro t
      obtain ⟨rl, xt⟩ := r
      by_cases hr : rl ∈ roleSet
      · rw [show appendAll t ((rl, xt) :: rest) =
            appendAll { turns := t.turns ++ [{ role := rl, text := xt }] } rest by
          simp [appendAll, appendTurn, hr]]
        rw [ih]
        simp [List.filter_cons, hr]
      · rw [show appendAll t ((rl, xt) :: rest) = appendAll t rest by
          simp [appendAll, appendTurn, hr]]
        rw [ih]
        simp [List.filter_cons, hr]

/-- C4: running any finite sequence of `appendTurn` requests on a fresh
session leaves the transcript holding exactly the successful requests as
turns, in request order (so the rendered turn count equals the number of
successful appends); and a successful `appendTurn` only ever extends the
existing turn sequence at the end, never modifying or removing a prior
turn. -/
theorem appendAll_append_only :
    (∀ reqs : List (String × String),
      (appendAll createSession reqs).turns =
        (reqs.filter (fun p => p.1 ∈ roleSet)).map (fun p => { role := p.1, text := p.2 }) ∧
      (appendAll createSession reqs).turns.length =
        (reqs.filter (fun p => p.1 ∈ roleSet)).length) ∧
    (∀ (t : Transcript) (r x : String) (t2 : Transcript),
      appendTurn t r x = Except.ok t2 → ∃ extra, t2.turns = t.turns ++ extra) := by
  constructor
  · intro reqs
    have h := appendAll_turns reqs createSession
    constructor
    · simpa [createSession] using h
    · rw [show (appendAll createSession reqs).turns =
          (reqs.filter (fun p => p.1 ∈ roleSet)).map (fun p => { role := p.1, text := p.2 })
        from by simpa [createSession] using h]
      simp
  · intro t r x t2 h
    exact ⟨[{ role := r, text := x }], appendTurn_extends t r x t2 h⟩

/-- Witness for C4: a fresh session run through requests user/Hi,
system/x (rejected), agent/Hello holds exactly the two successful turns in
order, and the first successful append extended the empty session. -/
theorem appendAll_append_only_witness :
    (appendAll createSession demoReqs).turns =
      [{ role := "user", text := "Hi" }, { role := "agent", text := "Hello" }] ∧
    ∃ extra, (Transcript.mk [{ role := "user", text := "Hi" }]).turns =
      createSession.turns ++ extra := by
  constructor
  · rw [(appendAll_append_only.1 demoReqs).1]
    rfl
  · exact appendAll_append_only.2 createSession "user" "Hi"
      (Transcript.mk [{ role := "user", text := "Hi" }]) rfl

end PromptSpec
